import Mathlib

/-
  Verification of the ScreenManager session dashboard (src/screenmanager.py).

  The heart of the program is the session-listing parser:

      pattern_ls = re.compile(r"\s+(.+?)\s+\((.+?)\)\s+\((.+?)\)")
      ...
      for i in re.findall(pattern_ls, self.query_one(PopenExec).exec("screen -ls")):
          sv.add(*i)

  We embed Python's regex semantics for this one fixed pattern as a
  structural backtracking matcher over `List Char`:

    * `\s`  is Python's Unicode whitespace class (see `isSpace` below);
    * `.`   matches any character except `'\n'` (default, no DOTALL);
    * `\s+` is greedy (longest repetition tried first);
    * `(.+?)` is lazy (shortest repetition tried first);
    * `re.findall` scans left to right, emitting non-overlapping matches,
      resuming immediately after the end of each match.

  Since the pattern is fixed, the backtracking search specialises to the
  functions below.  Backtracking points: after `\s+` comes `(.+?)`, whose
  characters may themselves be whitespace, so the greedy run really
  backtracks; after each `(.+?)` comes either `\s+\(` or `\)` — in the
  `\s+\(` case the continuation is deterministic (a whitespace run can
  only be followed by `(` at its maximal extent), in the `\)` case the
  lazy group closes at each `)` and falls back to growing the group.

  On top of the parser we embed the view model (`ScreenView.clear/add`,
  `ScreenManager.action_refresh`), the terminate action
  (`ScreenItem.on_button_pressed`), the create-session command builder
  (`Panel.on_button_pressed`), the default-command directory scan
  (`Panel.compose`), and the command runner (`PopenExec.exec`).
-/

/-- One parsed record: the three capture groups
(serial, creation info, status info), exactly as `re.findall`
returns a tuple of the three groups per match. -/
abbrev ScreenRec := List Char × List Char × List Char

/-- Python's `\s` class for `str` patterns: `[ \t\n\r\f\v]` together with
the further Unicode whitespace code points recognised by CPython's `sre`. -/
def isSpace (c : Char) : Bool :=
  (0x9 ≤ c.toNat && c.toNat ≤ 0xd) || c.toNat = 0x20 ||
  (0x1c ≤ c.toNat && c.toNat ≤ 0x1f) || c.toNat = 0x85 || c.toNat = 0xa0 ||
  c.toNat = 0x1680 || (0x2000 ≤ c.toNat && c.toNat ≤ 0x200a) ||
  c.toNat = 0x2028 || c.toNat = 0x2029 || c.toNat = 0x202f ||
  c.toNat = 0x205f || c.toNat = 0x3000

/-- First non-whitespace character of a string, if any. -/
def nextNonWs : List Char → Option Char
  | [] => none
  | c :: rest => if isSpace c then nextNonWs rest else some c

/-- Loop of the final lazy group `(.+?)\)` (nothing follows the `)`):
the group, already holding `acc.reverse`, closes at the first `)`;
any other non-newline character is swallowed by the group. -/
def matchG3Go (acc : List Char) : List Char → Option (List Char × List Char)
  | [] => none
  | c :: rest =>
    if c = ')' then some (acc.reverse, rest)
    else if c = '\n' then none
    else matchG3Go (c :: acc) rest

/-- `(.+?)\)` at the end of the pattern: at least one character
(any non-newline character, including `)`), then close at the
first `)` thereafter. -/
def matchG3 : List Char → Option (List Char × List Char)
  | [] => none
  | c :: rest => if c = '\n' then none else matchG3Go [c] rest

/-- Tail of `\s+\(`: skip the (maximal) whitespace run, then demand `(`.
Backtracking to a shorter run is pointless — the run would then be
followed by a whitespace character, never `(` — so this is exact. -/
def skipWsParen : List Char → Option (List Char)
  | [] => none
  | c :: rest =>
    if isSpace c then skipWsParen rest
    else if c = '(' then some rest else none

/-- `\s+\(`: at least one whitespace character, then `skipWsParen`. -/
def wsThenParen : List Char → Option (List Char)
  | [] => none
  | c :: rest => if isSpace c then skipWsParen rest else none

/-- `\s+\((.+?)\)` — the continuation attempted when the second lazy
group tries to close. -/
def matchG3After (s : List Char) : Option (List Char × List Char) :=
  (wsThenParen s).bind matchG3

/-- Loop of the second lazy group `(.+?)\)\s+\((.+?)\)`: at each `)` the
group first tries to close (running the continuation `\s+\((.+?)\)`);
if the continuation fails the `)` is swallowed by the group instead. -/
def matchG2Go (acc : List Char) :
    List Char → Option (List Char × List Char × List Char)
  | [] => none
  | c :: rest =>
    if c = ')' then
      match matchG3After rest with
      | some (g3, r3) => some (acc.reverse, g3, r3)
      | none => matchG2Go (c :: acc) rest
    else if c = '\n' then none
    else matchG2Go (c :: acc) rest

/-- `(.+?)\)\s+\((.+?)\)`: at least one (non-newline) character,
then the loop. -/
def matchG2 : List Char → Option (List Char × List Char × List Char)
  | [] => none
  | c :: rest => if c = '\n' then none else matchG2Go [c] rest

/-- `\s+\((.+?)\)\s+\((.+?)\)` — the continuation attempted when the
first lazy group tries to close. -/
def matchG2Start (s : List Char) : Option (List Char × List Char × List Char) :=
  (wsThenParen s).bind matchG2

/-- Loop of the first lazy group `(.+?)\s+\((.+?)\)\s+\((.+?)\)`:
before swallowing the next character, the group (holding `acc.reverse`)
tries to close here by running the continuation. -/
def matchG1Go (acc : List Char) :
    List Char → Option (ScreenRec × List Char)
  | [] => none
  | c :: rest =>
    match matchG2Start (c :: rest) with
    | some (g2, g3, r) => some ((acc.reverse, g2, g3), r)
    | none => if c = '\n' then none else matchG1Go (c :: acc) rest

/-- `(.+?)\s+\((.+?)\)\s+\((.+?)\)`: at least one (non-newline)
character, then the loop. -/
def matchG1 : List Char → Option (ScreenRec × List Char)
  | [] => none
  | c :: rest => if c = '\n' then none else matchG1Go [c] rest

/-- Greedy part of the leading `\s+`, one whitespace character already
consumed: prefer to extend the run (deeper recursion) and only on
failure fall back to starting the first group at this character. -/
def afterWsGo : List Char → Option (ScreenRec × List Char)
  | [] => none
  | c :: rest =>
    if isSpace c then
      match afterWsGo rest with
      | some r => some r
      | none => matchG1 (c :: rest)
    else matchG1 (c :: rest)

/-- Attempt to match the whole pattern anchored at the head of `s`:
the first character must be whitespace (the mandatory first character
of `\s+`), then the greedy rest of the run and the three groups. -/
def tryAt : List Char → Option (ScreenRec × List Char)
  | [] => none
  | c :: rest => if isSpace c then afterWsGo rest else none

/-- Fuelled scan of `re.findall`: try a match at every position, left to
right; on a match, emit the groups and resume after the match.  A fuel
of `s.length` always suffices (every match consumes at least one
character), see `findAllFuel_congr` below. -/
def findAllFuel : Nat → List Char → List ScreenRec
  | _, [] => []
  | 0, _ :: _ => []
  | fuel + 1, c :: rest =>
    match tryAt (c :: rest) with
    | some (r, rest') => r :: findAllFuel fuel rest'
    | none => findAllFuel fuel rest

/-- `re.findall(pattern_ls, s)`: all non-overlapping matches of
`\s+(.+?)\s+\((.+?)\)\s+\((.+?)\)` in `s`, left to right, as triples of
the three capture groups. -/
def findAll (s : List Char) : List ScreenRec := findAllFuel s.length s

/-! ## The session view model

`ScreenView` holds the rendered rows (`ScreenItem`s).  `clear` removes
every `ScreenItem`; `add` mounts one more at the end.  We model the
rendered rows as the list of their record triples. -/

/-- State of the `ScreenView` container: the rendered session rows,
in mount order. -/
structure ScreenViewState where
  items : List ScreenRec
  deriving DecidableEq

/-- `ScreenView.clear`: `for i in self.query(ScreenItem): i.remove()` —
every rendered row is removed. -/
def ScreenView.clear (_ : ScreenViewState) : ScreenViewState :=
  { items := [] }

/-- `ScreenView.add`: `self.mount(ScreenItem(serial, date, info))` —
one row appended at the end. -/
def ScreenView.add (v : ScreenViewState) (r : ScreenRec) : ScreenViewState :=
  { items := v.items ++ [r] }

/-- `ScreenManager.action_refresh`, with the text produced by
`exec("screen -ls")` as a parameter:

    sv.clear()
    for i in re.findall(pattern_ls, ...):
        sv.add(*i)
-/
def ScreenManager.action_refresh (v : ScreenViewState) (lsOutput : List Char) :
    ScreenViewState :=
  (findAll lsOutput).foldl ScreenView.add (ScreenView.clear v)

/-! ## The terminate action (`ScreenItem.on_button_pressed`, terminate branch)

    command = f"screen -X -S {self.serial} quit"
    self.app.query_one(PopenExec).exec(command)
    self.remove()

The pressed `ScreenItem` is identified by its position in the view; the
action produces the command line handed to `exec` and the view with just
that row removed (no refresh happens). -/

/-- The termination command line for a serial. -/
def ScreenItem.terminateCommand (serial : List Char) : List Char :=
  "screen -X -S ".toList ++ serial ++ " quit".toList

/-- Terminate-button press on the row at index `i`: the executed command
and the view after `self.remove()`.  `none` when no such row exists. -/
def ScreenItem.terminatePressed (v : ScreenViewState) (i : Nat) :
    Option (List Char × ScreenViewState) :=
  match v.items.get? i with
  | some r => some (ScreenItem.terminateCommand r.1, { items := v.items.eraseIdx i })
  | none => none

/-! ## The create action (`Panel.on_button_pressed`)

    cmd_text = "screen"
    ...
    if name:
        cmd_text = f"{cmd_text} -S {name}"
    if command:
        cmd_text = f"{cmd_text} {command}"

Python truthiness of a string is non-emptiness. -/

/-- The command line built for "add terminal" from the two input values. -/
def Panel.buildCreateCommand (name command : List Char) : List Char :=
  let t0 := "screen".toList
  let t1 := if name = [] then t0 else t0 ++ " -S ".toList ++ name
  if command = [] then t1 else t1 ++ " ".toList ++ command

/-! ## The default-command scan (`Panel.compose`)

    command = ""
    for path in os.listdir():
        try:
            if os.path.isfile(path) and os.access(path, os.X_OK):
                command = f"./{path}"
                break
        except OSError:
            pass

For each directory entry the file-and-executable check either raises
`OSError`, comes out true, or comes out false; we record that outcome
per entry. -/

/-- Outcome of `os.path.isfile(path) and os.access(path, os.X_OK)`
for one directory entry. -/
inductive EntryCheck where
  | raisesOSError
  | execFile
  | other
  deriving DecidableEq, BEq

/-- One entry of `os.listdir()` with the outcome of its check. -/
structure DirEntry where
  name : List Char
  check : EntryCheck
  deriving DecidableEq

/-- The scan: first entry whose check passes, prefixed `./`; entries
whose check raises `OSError` are skipped (`except OSError: pass`), as
are entries whose check is false; empty string when none passes. -/
def Panel.defaultCommand : List DirEntry → List Char
  | [] => []
  | e :: rest =>
    match e.check with
    | .execFile => '.' :: '/' :: e.name
    | .raisesOSError => Panel.defaultCommand rest
    | .other => Panel.defaultCommand rest

/-- The entries whose check completed without raising. -/
def accessibleEntries (entries : List DirEntry) : List DirEntry :=
  entries.filter fun e =>
    match e.check with
    | .raisesOSError => false
    | _ => true

/-- The first entry whose check passed. -/
def firstExecEntry (entries : List DirEntry) : Option DirEntry :=
  entries.find? fun e =>
    match e.check with
    | .execFile => true
    | _ => false

/-! ## The command runner (`PopenExec.exec`)

    def exec(self, command: str):
        logger = self.query_one(PopenLog)
        logger.write_command(command)
        with os.popen(command) as p:
            res = p.read()
        logger.write(res)
        return res

`os.popen(command)` hands `command` to the shell with only the child's
standard output piped back; `p.read()` returns that captured standard
output.  We model the `os.popen`/`read` step by its observable outcome:

  * `raised e` — the `os.popen` call itself raised `OSError e`
    (e.g. `fork` failure); the exception escapes `exec` uncaught;
  * `ran out` — the shell ran and `out` is the captured standard output.

A command whose executable does not exist is *run* by the shell: the
shell reports `command not found` on its standard error, which is not
piped, and produces no standard output — so at the `p.read()` interface
that case is the outcome `ran ""`. -/

/-- Observable outcome of `os.popen(command)` followed by `p.read()`. -/
inductive SpawnOutcome where
  | raised (errno : Nat)
  | ran (stdout : List Char)
  deriving DecidableEq

/-- The outcome `os.popen`/`read` produces when the command's executable
is not found: the shell prints the complaint on the unpiped standard
error and writes nothing to standard output. -/
def SpawnOutcome.execNotFound : SpawnOutcome := .ran []

/-- The outcome for a command that launches fine and writes nothing. -/
def SpawnOutcome.silentSuccess : SpawnOutcome := .ran []

/-- `PopenExec.exec`: log the command line, run it, log and return the
captured text.  The log is the list of texts written to `PopenLog`.
If `os.popen` raises, the exception propagates before anything is
returned. -/
def PopenExec.exec (log : List (List Char)) (command : List Char)
    (outcome : SpawnOutcome) : Except Nat (List Char × List (List Char)) :=
  let log1 := log ++ [command]
  match outcome with
  | .raised e => .error e
  | .ran out => .ok (out, log1 ++ [out])

/-! ## Well-formed listing texts

For the parser round-trip theorems we describe the texts the spec calls
"well-formed listing lines separated by banner lines".  A text is a
`'\n'`-separated sequence of lines; a listing line is

    w1 ++ serial ++ w2 ++ "(" ++ g2 ++ ")" ++ w3 ++ "(" ++ g3 ++ ")"

with `w1,w2,w3` nonempty whitespace runs, `serial` a nonempty token
without whitespace and without `(`, and `g2,g3` nonempty group contents
without `)` and without newline. -/

/-- A line of a listing text: a banner line or a listing line, the
latter given by its components. -/
inductive Line where
  | banner (b : List Char)
  | listing (w1 serial w2 g2 w3 g3 : List Char)
  deriving DecidableEq

/-- The characters of one line. -/
def renderLine : Line → List Char
  | .banner b => b
  | .listing w1 serial w2 g2 w3 g3 =>
    w1 ++ (serial ++ (w2 ++ ('(' :: (g2 ++ (')' :: (w3 ++ ('(' :: (g3 ++ [')']))))))))

/-- All lines after the first, each preceded by its `'\n'` separator. -/
def renderTail : List Line → List Char
  | [] => []
  | l :: rest => '\n' :: (renderLine l ++ renderTail rest)

/-- The whole text: lines joined by `'\n'`. -/
def renderText : List Line → List Char
  | [] => []
  | l :: rest => renderLine l ++ renderTail rest

/-- Well-formedness of one line: banners carry no `(` (and, being lines,
no newline); listing-line components are as described above. -/
def wfLine : Line → Bool
  | .banner b => b.all fun c => c ≠ '(' && c ≠ '\n'
  | .listing w1 serial w2 g2 w3 g3 =>
    !w1.isEmpty && w1.all (fun c => isSpace c && c ≠ '\n') &&
    (!serial.isEmpty && serial.all (fun c => !isSpace c && c ≠ '(')) &&
    (!w2.isEmpty && w2.all (fun c => isSpace c && c ≠ '\n')) &&
    (!g2.isEmpty && g2.all (fun c => c ≠ ')' && c ≠ '\n')) &&
    (!w3.isEmpty && w3.all (fun c => isSpace c && c ≠ '\n')) &&
    (!g3.isEmpty && g3.all (fun c => c ≠ ')' && c ≠ '\n'))

/-- Well-formedness of a whole text. -/
def wfLines (ls : List Line) : Bool := ls.all wfLine

/-- The records the listing lines of a text denote, in line order. -/
def listingRecords : List Line → List ScreenRec
  | [] => []
  | .banner _ :: rest => listingRecords rest
  | .listing _ serial _ g2 _ g3 :: rest => (serial, g2, g3) :: listingRecords rest

/-- The well-formedness conditions of a listing line, as a bundle of
propositions (the propositional reading of the listing case of
`wfLine`). -/
structure ListingOk (w1 serial w2 g2 w3 g3 : List Char) : Prop where
  w1ne : w1 ≠ []
  w1ws : ∀ c ∈ w1, isSpace c = true
  serne : serial ≠ []
  serws : ∀ c ∈ serial, isSpace c = false
  serpar : ∀ c ∈ serial, c ≠ '('
  w2ne : w2 ≠ []
  w2ws : ∀ c ∈ w2, isSpace c = true
  g2ne : g2 ≠ []
  g2c : ∀ c ∈ g2, c ≠ ')' ∧ c ≠ '\n'
  w3ne : w3 ≠ []
  w3ws : ∀ c ∈ w3, isSpace c = true
  g3ne : g3 ≠ []
  g3c : ∀ c ∈ g3, c ≠ ')' ∧ c ≠ '\n'

/-- A concrete well-formed text: two listing lines surrounded by
parenthesis-free banner lines. -/
def exampleLines : List Line :=
  [.banner "There are screens on:".toList,
   .listing "\t".toList "12345.foo".toList "\t".toList "Detached".toList
     "\t".toList "Multi, 80x24".toList,
   .listing "\t".toList "678.bar".toList "\t".toList "Attached".toList
     "\t".toList "1 Socket".toList,
   .banner "2 Sockets in /run/screen/S-user.".toList]

/-! ## Sanity checks of the embedding on concrete inputs -/

example : findAll "\t12345.foo\t(Detached)\t(Multi, 80x24)".toList =
    [("12345.foo".toList, "Detached".toList, "Multi, 80x24".toList)] := by decide

example : findAll "".toList = [] := by decide

example : findAll "a (b) (c)".toList = [] := by decide

example : findAll "x\na (b) (c)".toList = [("a".toList, "b".toList, "c".toList)] := by
  decide

example :
    renderText [.listing "\t".toList "1.a".toList "\t".toList "x".toList
      "\t".toList "y".toList, .banner "ok".toList] =
    "\t1.a\t(x)\t(y)\nok".toList := by decide

/-! ## Unfolding equations

The matcher functions are structurally recursive; the equations below
restate their defining clauses and hold by `rfl`.  The proofs further
down use only these equations to unfold the matchers. -/

theorem nextNonWs_nil : nextNonWs [] = none := rfl

theorem nextNonWs_cons (c : Char) (rest : List Char) :
    nextNonWs (c :: rest) = if isSpace c then nextNonWs rest else some c := rfl

theorem matchG3Go_nil (acc : List Char) : matchG3Go acc [] = none := rfl

theorem matchG3Go_cons (acc : List Char) (c : Char) (rest : List Char) :
    matchG3Go acc (c :: rest) =
      if c = ')' then some (acc.reverse, rest)
      else if c = '\n' then none
      else matchG3Go (c :: acc) rest := rfl

theorem matchG3_nil : matchG3 [] = none := rfl

theorem matchG3_cons (c : Char) (rest : List Char) :
    matchG3 (c :: rest) = if c = '\n' then none else matchG3Go [c] rest := rfl

theorem skipWsParen_nil : skipWsParen [] = none := rfl

theorem skipWsParen_cons (c : Char) (rest : List Char) :
    skipWsParen (c :: rest) =
      if isSpace c then skipWsParen rest
      else if c = '(' then some rest else none := rfl

theorem wsThenParen_nil : wsThenParen [] = none := rfl

theorem wsThenParen_cons (c : Char) (rest : List Char) :
    wsThenParen (c :: rest) = if isSpace c then skipWsParen rest else none := rfl

theorem matchG3After_def (s : List Char) :
    matchG3After s = (wsThenParen s).bind matchG3 := rfl

theorem matchG2Go_nil (acc : List Char) : matchG2Go acc [] = none := rfl

theorem matchG2Go_cons (acc : List Char) (c : Char) (rest : List Char) :
    matchG2Go acc (c :: rest) =
      if c = ')' then
        match matchG3After rest with
        | some (g3, r3) => some (acc.reverse, g3, r3)
        | none => matchG2Go (c :: acc) rest
      else if c = '\n' then none
      else matchG2Go (c :: acc) rest := rfl

theorem matchG2_nil : matchG2 [] = none := rfl

theorem matchG2_cons (c : Char) (rest : List Char) :
    matchG2 (c :: rest) = if c = '\n' then none else matchG2Go [c] rest := rfl

theorem matchG2Start_def (s : List Char) :
    matchG2Start s = (wsThenParen s).bind matchG2 := rfl

theorem matchG1Go_nil (acc : List Char) : matchG1Go acc [] = none := rfl

theorem matchG1Go_cons (acc : List Char) (c : Char) (rest : List Char) :
    matchG1Go acc (c :: rest) =
      match matchG2Start (c :: rest) with
      | some (g2, g3, r) => some ((acc.reverse, g2, g3), r)
      | none => if c = '\n' then none else matchG1Go (c :: acc) rest := rfl

theorem matchG1_nil : matchG1 [] = none := rfl

theorem matchG1_cons (c : Char) (rest : List Char) :
    matchG1 (c :: rest) = if c = '\n' then none else matchG1Go [c] rest := rfl

theorem afterWsGo_nil : afterWsGo [] = none := rfl

theorem afterWsGo_cons (c : Char) (rest : List Char) :
    afterWsGo (c :: rest) =
      if isSpace c then
        match afterWsGo rest with
        | some r => some r
        | none => matchG1 (c :: rest)
      else matchG1 (c :: rest) := rfl

theorem tryAt_nil : tryAt [] = none := rfl

theorem tryAt_cons (c : Char) (rest : List Char) :
    tryAt (c :: rest) = if isSpace c then afterWsGo rest else none := rfl

theorem findAllFuel_nil (f : Nat) : findAllFuel f [] = [] := by cases f <;> rfl

theorem findAllFuel_succ (f : Nat) (c : Char) (rest : List Char) :
    findAllFuel (f + 1) (c :: rest) =
      match tryAt (c :: rest) with
      | some (r, rest') => r :: findAllFuel f rest'
      | none => findAllFuel f rest := rfl

/-! ## Every match consumes characters

These bounds justify the fuel `s.length` in `findAll` and drive the
scan induction. -/

theorem matchG3Go_length : ∀ {s : List Char} {acc g r},
    matchG3Go acc s = some (g, r) → r.length < s.length
  | [], _, _, _, h => by rw [matchG3Go_nil] at h; exact Option.noConfusion h
  | c :: rest, acc, g, r, h => by
    rw [matchG3Go_cons] at h
    split at h
    · simp only [Option.some.injEq, Prod.mk.injEq] at h
      obtain ⟨-, rfl⟩ := h
      simp
    · split at h
      · exact Option.noConfusion h
      · exact Nat.lt_succ_of_lt (matchG3Go_length h)

theorem matchG3_length {s : List Char} {g r}
    (h : matchG3 s = some (g, r)) : r.length < s.length := by
  match s with
  | [] => rw [matchG3_nil] at h; exact Option.noConfusion h
  | c :: rest =>
    rw [matchG3_cons] at h
    split at h
    · exact Option.noConfusion h
    · exact Nat.lt_succ_of_lt (matchG3Go_length h)

theorem skipWsParen_length : ∀ {s : List Char} {r},
    skipWsParen s = some r → r.length < s.length
  | [], _, h => by rw [skipWsParen_nil] at h; exact Option.noConfusion h
  | c :: rest, r, h => by
    rw [skipWsParen_cons] at h
    split at h
    · exact Nat.lt_succ_of_lt (skipWsParen_length h)
    · split at h
      · simp only [Option.some.injEq] at h
        subst h
        simp
      · exact Option.noConfusion h

theorem wsThenParen_length {s : List Char} {r}
    (h : wsThenParen s = some r) : r.length < s.length := by
  match s with
  | [] => rw [wsThenParen_nil] at h; exact Option.noConfusion h
  | c :: rest =>
    rw [wsThenParen_cons] at h
    split at h
    · exact Nat.lt_succ_of_lt (skipWsParen_length h)
    · exact Option.noConfusion h

theorem matchG3After_length {s : List Char} {g r}
    (h : matchG3After s = some (g, r)) : r.length < s.length := by
  rw [matchG3After_def] at h
  match hw : wsThenParen s with
  | none => rw [hw] at h; exact Option.noConfusion h
  | some r1 =>
    rw [hw] at h
    exact (matchG3_length (show matchG3 r1 = some (g, r) from h)).trans
      (wsThenParen_length hw)

theorem matchG2Go_length : ∀ {s : List Char} {acc g2 g3 r},
    matchG2Go acc s = some (g2, g3, r) → r.length < s.length
  | [], _, _, _, _, h => by rw [matchG2Go_nil] at h; exact Option.noConfusion h
  | c :: rest, acc, g2, g3, r, h => by
    rw [matchG2Go_cons] at h
    split at h
    · split at h
      · rename_i heq
        simp only [Option.some.injEq, Prod.mk.injEq] at h
        obtain ⟨-, -, rfl⟩ := h
        exact Nat.lt_succ_of_lt (matchG3After_length heq)
      · exact Nat.lt_succ_of_lt (matchG2Go_length h)
    · split at h
      · exact Option.noConfusion h
      · exact Nat.lt_succ_of_lt (matchG2Go_length h)

theorem matchG2_length {s : List Char} {g2 g3 r}
    (h : matchG2 s = some (g2, g3, r)) : r.length < s.length := by
  match s with
  | [] => rw [matchG2_nil] at h; exact Option.noConfusion h
  | c :: rest =>
    rw [matchG2_cons] at h
    split at h
    · exact Option.noConfusion h
    · exact Nat.lt_succ_of_lt (matchG2Go_length h)

theorem matchG2Start_length {s : List Char} {g2 g3 r}
    (h : matchG2Start s = some (g2, g3, r)) : r.length < s.length := by
  rw [matchG2Start_def] at h
  match hw : wsThenParen s with
  | none => rw [hw] at h; exact Option.noConfusion h
  | some r1 =>
    rw [hw] at h
    exact (matchG2_length (show matchG2 r1 = some (g2, g3, r) from h)).trans
      (wsThenParen_length hw)

theorem matchG1Go_length : ∀ {s : List Char} {acc pr r},
    matchG1Go acc s = some (pr, r) → r.length < s.length
  | [], _, _, _, h => by rw [matchG1Go_nil] at h; exact Option.noConfusion h
  | c :: rest, acc, pr, r, h => by
    rw [matchG1Go_cons] at h
    split at h
    · rename_i g2 g3 r1 heq
      simp only [Option.some.injEq, Prod.mk.injEq] at h
      obtain ⟨-, rfl⟩ := h
      exact matchG2Start_length heq
    · split at h
      · exact Option.noConfusion h
      · exact Nat.lt_succ_of_lt (matchG1Go_length h)

theorem matchG1_length {s : List Char} {pr r}
    (h : matchG1 s = some (pr, r)) : r.length < s.length := by
  match s with
  | [] => rw [matchG1_nil] at h; exact Option.noConfusion h
  | c :: rest =>
    rw [matchG1_cons] at h
    split at h
    · exact Option.noConfusion h
    · exact Nat.lt_succ_of_lt (matchG1Go_length h)

theorem afterWsGo_length : ∀ {s : List Char} {pr r},
    afterWsGo s = some (pr, r) → r.length < s.length
  | [], _, _, h => by rw [afterWsGo_nil] at h; exact Option.noConfusion h
  | c :: rest, pr, r, h => by
    rw [afterWsGo_cons] at h
    split at h
    · split at h
      · rename_i heq
        simp only [Option.some.injEq] at h
        subst h
        exact Nat.lt_succ_of_lt (afterWsGo_length heq)
      · exact matchG1_length h
    · exact matchG1_length h

theorem tryAt_length {s : List Char} {pr r}
    (h : tryAt s = some (pr, r)) : r.length < s.length := by
  match s with
  | [] => rw [tryAt_nil] at h; exact Option.noConfusion h
  | c :: rest =>
    rw [tryAt_cons] at h
    split at h
    · exact Nat.lt_succ_of_lt (afterWsGo_length h)
    · exact Option.noConfusion h

/-! ## The scan equations of `findAll` -/

theorem findAllFuel_congr : ∀ {f1 f2 : Nat} {s : List Char},
    s.length ≤ f1 → s.length ≤ f2 → findAllFuel f1 s = findAllFuel f2 s
  | _, _, [], _, _ => by rw [findAllFuel_nil, findAllFuel_nil]
  | 0, _, c :: rest, h1, _ => by simp at h1
  | _ + 1, 0, c :: rest, _, h2 => by simp at h2
  | f1 + 1, f2 + 1, c :: rest, h1, h2 => by
    rw [findAllFuel_succ, findAllFuel_succ]
    match htry : tryAt (c :: rest) with
    | some (r, rest') =>
      have hl := tryAt_length htry
      simp only [List.length_cons] at hl h1 h2
      dsimp only
      rw [findAllFuel_congr (Nat.le_of_lt_succ (Nat.lt_of_lt_of_le hl h1))
        (Nat.le_of_lt_succ (Nat.lt_of_lt_of_le hl h2))]
    | none =>
      simp only [List.length_cons, Nat.succ_le_succ_iff] at h1 h2
      dsimp only
      rw [findAllFuel_congr h1 h2]

theorem findAll_nil : findAll [] = [] := rfl

theorem findAll_cons (c : Char) (rest : List Char) :
    findAll (c :: rest) =
      match tryAt (c :: rest) with
      | some (r, rest') => r :: findAll rest'
      | none => findAll rest := by
  show findAllFuel (rest.length + 1) (c :: rest) = _
  rw [findAllFuel_succ]
  match htry : tryAt (c :: rest) with
  | some (r, rest') =>
    have hl := tryAt_length htry
    simp only [List.length_cons] at hl
    dsimp only
    rw [findAllFuel_congr (Nat.le_of_lt_succ hl) (Nat.le_refl _)]
    rfl
  | none => rfl


/-! ## C2: the round-trip example line -/

/-- Claim C2: for the input line `"\t12345.foo\t(Detached)\t(Multi, 80x24)"`
(literal tabs), the parser returns exactly one record with serial
`"12345.foo"`, created-at field `"Detached"` and info field
`"Multi, 80x24"`. -/
theorem parse_roundtrip_example :
    findAll "\t12345.foo\t(Detached)\t(Multi, 80x24)".toList =
      [("12345.foo".toList, "Detached".toList, "Multi, 80x24".toList)] := by
  decide

/-! ## C5: refresh replaces, never merges -/

theorem foldl_add_items (l : List ScreenRec) (v : ScreenViewState) :
    (l.foldl ScreenView.add v).items = v.items ++ l := by
  induction l generalizing v with
  | nil => simp
  | cons r t ih =>
    rw [List.foldl_cons, ih]
    simp [ScreenView.add]

/-- Claim C5: after refreshing twice with two different listing outputs
the view model holds exactly the records parsed from the second output
and none from the first, whatever the overlap — `action_refresh` clears
all rendered records and re-adds the fresh ones. -/
theorem action_refresh_replaces (v : ScreenViewState) (t1 t2 : List Char) :
    ScreenManager.action_refresh (ScreenManager.action_refresh v t1) t2 =
      ScreenManager.action_refresh v t2 ∧
    (ScreenManager.action_refresh v t2).items = findAll t2 := by
  constructor
  · rfl
  · show ((findAll t2).foldl ScreenView.add (ScreenView.clear v)).items = findAll t2
    rw [foldl_add_items]
    rfl

/-! ## C6: composition of the create-session command line -/

/-- Claim C6: the create-session command line is the bare base command
when both inputs are empty, and otherwise is built in the fixed order
base, `-S <name>` (only if a name was supplied), `<command>` (only if a
command was supplied); in particular name `work` with command
`./run.sh` yields `screen -S work ./run.sh`. -/
theorem buildCreateCommand_def (name command : List Char) :
    Panel.buildCreateCommand name command =
      if command = [] then
        if name = [] then "screen".toList
        else "screen".toList ++ " -S ".toList ++ name
      else
        (if name = [] then "screen".toList
         else "screen".toList ++ " -S ".toList ++ name) ++ " ".toList ++ command :=
  rfl

theorem buildCreateCommand_composition :
    Panel.buildCreateCommand [] [] = "screen".toList ∧
    Panel.buildCreateCommand "work".toList "./run.sh".toList =
      "screen -S work ./run.sh".toList ∧
    Panel.buildCreateCommand "work".toList [] = "screen -S work".toList ∧
    Panel.buildCreateCommand [] "./run.sh".toList = "screen ./run.sh".toList ∧
    ∀ name command : List Char, name ≠ [] → command ≠ [] →
      Panel.buildCreateCommand name command =
        "screen -S ".toList ++ name ++ (' ' :: command) := by
  refine ⟨by decide, by decide, by decide, by decide, fun name command h1 h2 => ?_⟩
  rw [buildCreateCommand_def, if_neg h2, if_neg h1,
    show "screen".toList ++ " -S ".toList = "screen -S ".toList by decide]
  simp [List.append_assoc]

/-- Witness for `buildCreateCommand_composition` at the claim's own
example inputs. -/
theorem buildCreateCommand_composition_witness :
    Panel.buildCreateCommand "work".toList "./run.sh".toList =
      "screen -S ".toList ++ "work".toList ++ (' ' :: "./run.sh".toList) :=
  buildCreateCommand_composition.2.2.2.2 "work".toList "./run.sh".toList
    (by decide) (by decide)

/-! ## C7: the terminate action -/

/-- Claim C7: pressing terminate on the rendered record at index `i`
executes exactly `screen -X -S <serial> quit` for that record's serial
and removes just that record from the rendered view (optimistic
removal, no refresh of the remaining records). -/
theorem terminate_optimistic_removal (v : ScreenViewState) (i : Nat) (r : ScreenRec)
    (h : v.items.get? i = some r) :
    ScreenItem.terminatePressed v i =
      some ("screen -X -S ".toList ++ r.1 ++ " quit".toList,
        ScreenViewState.mk (v.items.take i ++ v.items.drop (i + 1))) := by
  show (match v.items.get? i with
    | some r =>
      some (ScreenItem.terminateCommand r.1, ScreenViewState.mk (v.items.eraseIdx i))
    | none => none) = _
  rw [h]
  dsimp only
  rw [List.eraseIdx_eq_take_drop_succ]
  rfl

/-- Witness for `terminate_optimistic_removal`: in a concrete two-row
view, terminating row 0 runs the quit command for its serial and leaves
exactly the other row. -/
theorem terminate_optimistic_removal_witness :
    ScreenItem.terminatePressed
        ⟨[("1.a".toList, "x".toList, "y".toList),
          ("2.b".toList, "u".toList, "v".toList)]⟩ 0 =
      some ("screen -X -S 1.a quit".toList,
        ⟨[("2.b".toList, "u".toList, "v".toList)]⟩) :=
  (terminate_optimistic_removal
      ⟨[("1.a".toList, "x".toList, "y".toList),
        ("2.b".toList, "u".toList, "v".toList)]⟩ 0
      ("1.a".toList, "x".toList, "y".toList) (by decide)).trans (by decide)

/-! ## C8: the default-command scan -/

theorem defaultCommand_nil : Panel.defaultCommand [] = [] := rfl

theorem defaultCommand_cons (e : DirEntry) (rest : List DirEntry) :
    Panel.defaultCommand (e :: rest) =
      match e.check with
      | .execFile => '.' :: '/' :: e.name
      | .raisesOSError => Panel.defaultCommand rest
      | .other => Panel.defaultCommand rest := rfl

/-- Claim C8: the default-command scan never raises; entries whose
check raises `OSError` are skipped, so the result is computed from the
accessible entries alone, and it is the first accessible executable
regular file prefixed with `./` (empty when there is none). -/
theorem defaultCommand_scan_skips_errors (entries : List DirEntry) :
    Panel.defaultCommand entries = Panel.defaultCommand (accessibleEntries entries) ∧
    Panel.defaultCommand entries =
      (match firstExecEntry entries with
       | some e => '.' :: '/' :: e.name
       | none => []) := by
  induction entries with
  | nil => exact ⟨rfl, rfl⟩
  | cons e t ih =>
    obtain ⟨ih1, ih2⟩ := ih
    refine ⟨?_, ?_⟩
    all_goals rw [defaultCommand_cons]
    · cases hc : e.check
      · simpa [accessibleEntries, List.filter_cons, hc] using ih1
      · simp [accessibleEntries, List.filter_cons, hc, defaultCommand_cons]
      · simpa [accessibleEntries, List.filter_cons, hc, defaultCommand_cons]
          using ih1
    · cases hc : e.check
      · simpa [firstExecEntry, List.find?_cons, hc] using ih2
      · simp [firstExecEntry, List.find?_cons, hc]
      · simpa [firstExecEntry, List.find?_cons, hc] using ih2

/-! ## C4: error surfacing in the command runner -/

/-- Counterexample to claim C4: with `os.popen`, a command whose
executable is not found is run by the shell, which reports the failure
on the unpiped standard error and writes nothing to standard output —
so `exec` returns the empty captured text wrapped in a normal success,
the very same value a successfully launched silent command produces,
not a distinguishable error. -/
theorem exec_not_found_counterexample :
    PopenExec.exec [] "missing-program".toList SpawnOutcome.execNotFound =
      Except.ok (([] : List Char), ["missing-program".toList, []]) ∧
    PopenExec.exec [] "missing-program".toList SpawnOutcome.execNotFound =
      PopenExec.exec [] "missing-program".toList SpawnOutcome.silentSuccess := by
  exact ⟨rfl, rfl⟩

/-- Claim C4 (amended): only a failure of the `os.popen` call itself
(e.g. a fork failure) propagates out of `exec` as an error; a command
whose executable is not found yields the empty captured text in a
normal return, indistinguishable from a successful command that printed
nothing. -/
theorem exec_spawn_error_model :
    (∀ (log : List (List Char)) (cmd : List Char) (e : Nat),
      PopenExec.exec log cmd (SpawnOutcome.raised e) = Except.error e) ∧
    (∀ (log : List (List Char)) (cmd : List Char),
      PopenExec.exec log cmd SpawnOutcome.execNotFound =
        Except.ok (([] : List Char), (log ++ [cmd]) ++ [[]])) ∧
    (∀ (log : List (List Char)) (cmd : List Char),
      PopenExec.exec log cmd SpawnOutcome.execNotFound =
        PopenExec.exec log cmd SpawnOutcome.silentSuccess) :=
  ⟨fun _ _ _ => rfl, fun _ _ => rfl, fun _ _ => rfl⟩

/-! ## Character facts -/

theorem isSpace_paren : isSpace '(' = false := by decide

theorem isSpace_newline : isSpace '\n' = true := by decide

theorem ne_newline_of_not_space {c : Char} (h : isSpace c = false) : c ≠ '\n' := by
  intro hc
  rw [hc] at h
  exact absurd h (by decide)

/-! ## Matching a well-formed listing suffix

Evaluation of each matcher stage on input of the shape a well-formed
listing line presents to it.  All proofs proceed by induction along the
consumed segment, using only the unfolding equations. -/

theorem matchG3Go_append : ∀ (t acc r : List Char),
    (∀ c ∈ t, c ≠ ')' ∧ c ≠ '\n') →
    matchG3Go acc (t ++ ')' :: r) = some (acc.reverse ++ t, r)
  | [], acc, r, _ => by
    rw [List.nil_append, matchG3Go_cons]
    simp
  | c :: t', acc, r, h => by
    obtain ⟨hc1, hc2⟩ := h c (by simp)
    rw [List.cons_append, matchG3Go_cons, if_neg hc1, if_neg hc2,
      matchG3Go_append t' (c :: acc) r (fun x hx => h x (by simp [hx]))]
    simp

theorem matchG3_append (g r : List Char) (hne : g ≠ [])
    (h : ∀ c ∈ g, c ≠ ')' ∧ c ≠ '\n') :
    matchG3 (g ++ ')' :: r) = some (g, r) := by
  match g, hne with
  | c :: t, _ =>
    rw [List.cons_append, matchG3_cons, if_neg (h c (by simp)).2,
      matchG3Go_append t [c] r (fun x hx => h x (by simp [hx]))]
    simp

theorem skipWsParen_ws_append : ∀ (w r : List Char),
    (∀ c ∈ w, isSpace c = true) → skipWsParen (w ++ '(' :: r) = some r
  | [], r, _ => by
    rw [List.nil_append, skipWsParen_cons, if_neg (by decide)]
    simp
  | c :: w', r, h => by
    rw [List.cons_append, skipWsParen_cons, if_pos (h c (by simp))]
    exact skipWsParen_ws_append w' r (fun x hx => h x (by simp [hx]))

theorem wsThenParen_ws_append (w r : List Char) (hne : w ≠ [])
    (h : ∀ c ∈ w, isSpace c = true) : wsThenParen (w ++ '(' :: r) = some r := by
  match w, hne with
  | c :: w', _ =>
    rw [List.cons_append, wsThenParen_cons, if_pos (h c (by simp))]
    exact skipWsParen_ws_append w' r (fun x hx => h x (by simp [hx]))

theorem matchG3After_ws_append (w3 g3 r : List Char)
    (hw3 : w3 ≠ []) (hw3s : ∀ c ∈ w3, isSpace c = true)
    (hg3 : g3 ≠ []) (hg3c : ∀ c ∈ g3, c ≠ ')' ∧ c ≠ '\n') :
    matchG3After (w3 ++ '(' :: (g3 ++ ')' :: r)) = some (g3, r) := by
  rw [matchG3After_def, wsThenParen_ws_append w3 _ hw3 hw3s]
  exact matchG3_append g3 r hg3 hg3c

theorem matchG2Go_append : ∀ (t acc : List Char) {w3 g3 r : List Char},
    (∀ c ∈ t, c ≠ ')' ∧ c ≠ '\n') →
    w3 ≠ [] → (∀ c ∈ w3, isSpace c = true) →
    g3 ≠ [] → (∀ c ∈ g3, c ≠ ')' ∧ c ≠ '\n') →
    matchG2Go acc (t ++ ')' :: (w3 ++ '(' :: (g3 ++ ')' :: r))) =
      some (acc.reverse ++ t, g3, r)
  | [], acc, w3, g3, r, _, hw3, hw3s, hg3, hg3c => by
    rw [List.nil_append, matchG2Go_cons, if_pos rfl,
      matchG3After_ws_append w3 g3 r hw3 hw3s hg3 hg3c]
    simp
  | c :: t', acc, w3, g3, r, h, hw3, hw3s, hg3, hg3c => by
    obtain ⟨hc1, hc2⟩ := h c (by simp)
    rw [List.cons_append, matchG2Go_cons, if_neg hc1, if_neg hc2,
      matchG2Go_append t' (c :: acc) (fun x hx => h x (by simp [hx])) hw3 hw3s hg3 hg3c]
    simp

theorem matchG2_append (g2 : List Char) {w3 g3 r : List Char} (hg2 : g2 ≠ [])
    (hg2c : ∀ c ∈ g2, c ≠ ')' ∧ c ≠ '\n')
    (hw3 : w3 ≠ []) (hw3s : ∀ c ∈ w3, isSpace c = true)
    (hg3 : g3 ≠ []) (hg3c : ∀ c ∈ g3, c ≠ ')' ∧ c ≠ '\n') :
    matchG2 (g2 ++ ')' :: (w3 ++ '(' :: (g3 ++ ')' :: r))) = some (g2, g3, r) := by
  match g2, hg2 with
  | c :: t, _ =>
    rw [List.cons_append, matchG2_cons, if_neg (hg2c c (by simp)).2,
      matchG2Go_append t [c] (fun x hx => hg2c x (by simp [hx])) hw3 hw3s hg3 hg3c]
    simp

theorem matchG2Start_ws_append (w2 : List Char) {g2 w3 g3 r : List Char}
    (hw2 : w2 ≠ []) (hw2s : ∀ c ∈ w2, isSpace c = true)
    (hg2 : g2 ≠ []) (hg2c : ∀ c ∈ g2, c ≠ ')' ∧ c ≠ '\n')
    (hw3 : w3 ≠ []) (hw3s : ∀ c ∈ w3, isSpace c = true)
    (hg3 : g3 ≠ []) (hg3c : ∀ c ∈ g3, c ≠ ')' ∧ c ≠ '\n') :
    matchG2Start (w2 ++ '(' :: (g2 ++ ')' :: (w3 ++ '(' :: (g3 ++ ')' :: r)))) =
      some (g2, g3, r) := by
  rw [matchG2Start_def, wsThenParen_ws_append w2 _ hw2 hw2s]
  exact matchG2_append g2 hg2 hg2c hw3 hw3s hg3 hg3c

theorem matchG2Start_not_space {c : Char} (s : List Char) (hc : isSpace c = false) :
    matchG2Start (c :: s) = none := by
  rw [matchG2Start_def, wsThenParen_cons, if_neg (by simp [hc])]
  rfl

theorem matchG1Go_append : ∀ (t acc : List Char) {w2 g2 w3 g3 r : List Char},
    (∀ c ∈ t, isSpace c = false) →
    w2 ≠ [] → (∀ c ∈ w2, isSpace c = true) →
    g2 ≠ [] → (∀ c ∈ g2, c ≠ ')' ∧ c ≠ '\n') →
    w3 ≠ [] → (∀ c ∈ w3, isSpace c = true) →
    g3 ≠ [] → (∀ c ∈ g3, c ≠ ')' ∧ c ≠ '\n') →
    matchG1Go acc
        (t ++ (w2 ++ '(' :: (g2 ++ ')' :: (w3 ++ '(' :: (g3 ++ ')' :: r))))) =
      some ((acc.reverse ++ t, g2, g3), r)
  | [], acc, w2, g2, w3, g3, r, _, hw2, hw2s, hg2, hg2c, hw3, hw3s, hg3, hg3c => by
    match w2, hw2 with
    | d :: w2', _ =>
      have hm : matchG2Start (d :: (w2' ++ '(' :: (g2 ++ ')' ::
          (w3 ++ '(' :: (g3 ++ ')' :: r))))) = some (g2, g3, r) := by
        rw [← List.cons_append]
        exact matchG2Start_ws_append (d :: w2') (by simp) hw2s hg2 hg2c hw3 hw3s hg3 hg3c
      rw [List.nil_append, List.cons_append, matchG1Go_cons, hm]
      simp
  | c :: t', acc, w2, g2, w3, g3, r, h, hw2, hw2s, hg2, hg2c, hw3, hw3s, hg3, hg3c => by
    have hc := h c (by simp)
    rw [List.cons_append, matchG1Go_cons,
      matchG2Start_not_space _ hc, if_neg (ne_newline_of_not_space hc),
      matchG1Go_append t' (c :: acc) (fun x hx => h x (by simp [hx]))
        hw2 hw2s hg2 hg2c hw3 hw3s hg3 hg3c]
    simp

theorem matchG1_append (serial : List Char) {w2 g2 w3 g3 r : List Char}
    (hser : serial ≠ []) (hsers : ∀ c ∈ serial, isSpace c = false)
    (hw2 : w2 ≠ []) (hw2s : ∀ c ∈ w2, isSpace c = true)
    (hg2 : g2 ≠ []) (hg2c : ∀ c ∈ g2, c ≠ ')' ∧ c ≠ '\n')
    (hw3 : w3 ≠ []) (hw3s : ∀ c ∈ w3, isSpace c = true)
    (hg3 : g3 ≠ []) (hg3c : ∀ c ∈ g3, c ≠ ')' ∧ c ≠ '\n') :
    matchG1 (serial ++ (w2 ++ '(' :: (g2 ++ ')' :: (w3 ++ '(' :: (g3 ++ ')' :: r))))) =
      some ((serial, g2, g3), r) := by
  match serial, hser with
  | c :: t, _ =>
    rw [List.cons_append, matchG1_cons,
      if_neg (ne_newline_of_not_space (hsers c (by simp))),
      matchG1Go_append t [c] (fun x hx => hsers x (by simp [hx]))
        hw2 hw2s hg2 hg2c hw3 hw3s hg3 hg3c]
    simp

theorem afterWsGo_append : ∀ (u : List Char) {serial w2 g2 w3 g3 r : List Char},
    (∀ c ∈ u, isSpace c = true) →
    serial ≠ [] → (∀ c ∈ serial, isSpace c = false) →
    w2 ≠ [] → (∀ c ∈ w2, isSpace c = true) →
    g2 ≠ [] → (∀ c ∈ g2, c ≠ ')' ∧ c ≠ '\n') →
    w3 ≠ [] → (∀ c ∈ w3, isSpace c = true) →
    g3 ≠ [] → (∀ c ∈ g3, c ≠ ')' ∧ c ≠ '\n') →
    afterWsGo (u ++ (serial ++ (w2 ++ '(' ::
        (g2 ++ ')' :: (w3 ++ '(' :: (g3 ++ ')' :: r)))))) =
      some ((serial, g2, g3), r)
  | [], serial, w2, g2, w3, g3, r, _, hser, hsers,
      hw2, hw2s, hg2, hg2c, hw3, hw3s, hg3, hg3c => by
    match serial, hser with
    | c :: t, _ =>
      rw [List.nil_append, List.cons_append, afterWsGo_cons,
        if_neg (by simp [hsers c (by simp)])]
      rw [← List.cons_append]
      exact matchG1_append (c :: t) (by simp) hsers hw2 hw2s hg2 hg2c hw3 hw3s hg3 hg3c
  | c :: u', serial, w2, g2, w3, g3, r, h, hser, hsers,
      hw2, hw2s, hg2, hg2c, hw3, hw3s, hg3, hg3c => by
    rw [List.cons_append, afterWsGo_cons, if_pos (h c (by simp)),
      afterWsGo_append u' (fun x hx => h x (by simp [hx])) hser hsers
        hw2 hw2s hg2 hg2c hw3 hw3s hg3 hg3c]

/-! ## A match needs a parenthesis

Every successful stage consumed a `(`; hence a text without `(` parses
to the empty record list. -/

theorem skipWsParen_some_paren : ∀ {s : List Char} {r},
    skipWsParen s = some r → '(' ∈ s
  | [], _, h => by rw [skipWsParen_nil] at h; exact Option.noConfusion h
  | c :: rest, r, h => by
    rw [skipWsParen_cons] at h
    split at h
    · exact List.mem_cons_of_mem _ (skipWsParen_some_paren h)
    · split at h
      · rename_i hc
        rw [hc]
        exact List.mem_cons_self _ _
      · exact Option.noConfusion h

theorem wsThenParen_some_paren {s : List Char} {r}
    (h : wsThenParen s = some r) : '(' ∈ s := by
  match s with
  | [] => rw [wsThenParen_nil] at h; exact Option.noConfusion h
  | c :: rest =>
    rw [wsThenParen_cons] at h
    split at h
    · exact List.mem_cons_of_mem _ (skipWsParen_some_paren h)
    · exact Option.noConfusion h

theorem matchG2Start_some_paren {s : List Char} {x}
    (h : matchG2Start s = some x) : '(' ∈ s := by
  rw [matchG2Start_def] at h
  match hw : wsThenParen s with
  | none => rw [hw] at h; exact Option.noConfusion h
  | some r1 => exact wsThenParen_some_paren hw

theorem matchG1Go_some_paren : ∀ {s : List Char} {acc x},
    matchG1Go acc s = some x → '(' ∈ s
  | [], _, _, h => by rw [matchG1Go_nil] at h; exact Option.noConfusion h
  | c :: rest, acc, x, h => by
    rw [matchG1Go_cons] at h
    split at h
    · rename_i heq
      exact matchG2Start_some_paren heq
    · split at h
      · exact Option.noConfusion h
      · exact List.mem_cons_of_mem _ (matchG1Go_some_paren h)

theorem matchG1_some_paren {s : List Char} {x}
    (h : matchG1 s = some x) : '(' ∈ s := by
  match s with
  | [] => rw [matchG1_nil] at h; exact Option.noConfusion h
  | c :: rest =>
    rw [matchG1_cons] at h
    split at h
    · exact Option.noConfusion h
    · exact List.mem_cons_of_mem _ (matchG1Go_some_paren h)

theorem afterWsGo_some_paren : ∀ {s : List Char} {x},
    afterWsGo s = some x → '(' ∈ s
  | [], _, h => by rw [afterWsGo_nil] at h; exact Option.noConfusion h
  | c :: rest, x, h => by
    rw [afterWsGo_cons] at h
    split at h
    · split at h
      · rename_i heq
        exact List.mem_cons_of_mem _ (afterWsGo_some_paren heq)
      · exact matchG1_some_paren h
    · exact matchG1_some_paren h

theorem tryAt_some_paren {s : List Char} {x}
    (h : tryAt s = some x) : '(' ∈ s := by
  match s with
  | [] => rw [tryAt_nil] at h; exact Option.noConfusion h
  | c :: rest =>
    rw [tryAt_cons] at h
    split at h
    · exact List.mem_cons_of_mem _ (afterWsGo_some_paren h)
    · exact Option.noConfusion h

theorem findAll_no_paren : ∀ {s : List Char}, '(' ∉ s → findAll s = []
  | [], _ => findAll_nil
  | c :: rest, h => by
    rw [findAll_cons]
    match htry : tryAt (c :: rest) with
    | some x => exact absurd (tryAt_some_paren htry) h
    | none =>
      dsimp only
      exact findAll_no_paren fun hm => h (List.mem_cons_of_mem _ hm)

/-! ## No match can start inside a parenthesis-free prefix

A match attempt whose first group would have to start inside a
parenthesis-free stretch of text that ends in a newline fails: the
first group cannot cross the newline, and no whitespace run inside the
stretch is followed by `(` — the first non-whitespace character after
the closing newline is not `(` either. -/

theorem nextNonWs_ws_append : ∀ {u : List Char} (s : List Char),
    (∀ c ∈ u, isSpace c = true) → nextNonWs (u ++ s) = nextNonWs s
  | [], s, _ => by rw [List.nil_append]
  | c :: u', s, h => by
    rw [List.cons_append, nextNonWs_cons, if_pos (h c (by simp))]
    exact nextNonWs_ws_append s fun x hx => h x (by simp [hx])

theorem nextNonWs_not_space {c : Char} (s : List Char) (h : isSpace c = false) :
    nextNonWs (c :: s) = some c := by
  rw [nextNonWs_cons, if_neg (by simp [h])]

theorem skipWsParen_none : ∀ {s : List Char}, nextNonWs s ≠ some '(' →
    skipWsParen s = none
  | [], _ => skipWsParen_nil
  | c :: rest, h => by
    rw [nextNonWs_cons] at h
    rw [skipWsParen_cons]
    by_cases hc : isSpace c = true
    · rw [if_pos hc] at h
      rw [if_pos hc]
      exact skipWsParen_none h
    · rw [if_neg hc] at h
      rw [if_neg hc, if_neg fun hp : c = '(' => h (by rw [hp])]

theorem wsThenParen_none {s : List Char} (h : nextNonWs s ≠ some '(') :
    wsThenParen s = none := by
  match s with
  | [] => exact wsThenParen_nil
  | c :: rest =>
    rw [wsThenParen_cons]
    by_cases hc : isSpace c = true
    · rw [if_pos hc]
      rw [nextNonWs_cons, if_pos hc] at h
      exact skipWsParen_none h
    · rw [if_neg hc]

theorem matchG2Start_none {s : List Char} (h : nextNonWs s ≠ some '(') :
    matchG2Start s = none := by
  rw [matchG2Start_def, wsThenParen_none h]
  rfl

theorem skipWsParen_junk : ∀ {z : List Char} {p : List Char}, '(' ∉ z →
    nextNonWs p ≠ some '(' → skipWsParen (z ++ '\n' :: p) = none
  | [], p, _, hp => by
    rw [List.nil_append, skipWsParen_cons, if_pos isSpace_newline]
    exact skipWsParen_none hp
  | c :: z', p, hz, hp => by
    rw [List.cons_append, skipWsParen_cons]
    by_cases hc : isSpace c = true
    · rw [if_pos hc]
      exact skipWsParen_junk (fun hm => hz (List.mem_cons_of_mem _ hm)) hp
    · rw [if_neg hc,
        if_neg fun hpar : c = '(' => hz (by rw [hpar]; exact List.mem_cons_self _ _)]

theorem wsThenParen_junk {z p : List Char} (hz : '(' ∉ z)
    (hp : nextNonWs p ≠ some '(') : wsThenParen (z ++ '\n' :: p) = none := by
  match z with
  | [] =>
    rw [List.nil_append, wsThenParen_cons, if_pos isSpace_newline]
    exact skipWsParen_none hp
  | c :: z' =>
    rw [List.cons_append, wsThenParen_cons]
    by_cases hc : isSpace c = true
    · rw [if_pos hc]
      exact skipWsParen_junk (fun hm => hz (List.mem_cons_of_mem _ hm)) hp
    · rw [if_neg hc]

theorem matchG2Start_junk {z p : List Char} (hz : '(' ∉ z)
    (hp : nextNonWs p ≠ some '(') : matchG2Start (z ++ '\n' :: p) = none := by
  rw [matchG2Start_def, wsThenParen_junk hz hp]
  rfl

theorem matchG1Go_junk : ∀ {z : List Char} (acc : List Char) {p : List Char},
    '(' ∉ z → nextNonWs p ≠ some '(' → matchG1Go acc (z ++ '\n' :: p) = none
  | [], acc, p, _, hp => by
    have hm : matchG2Start ('\n' :: p) = none := by
      rw [matchG2Start_def, wsThenParen_cons, if_pos isSpace_newline,
        skipWsParen_none hp]
      rfl
    rw [List.nil_append, matchG1Go_cons, hm]
    dsimp only
    rw [if_pos rfl]
  | c :: z', acc, p, hz, hp => by
    have hm : matchG2Start (c :: (z' ++ '\n' :: p)) = none := by
      rw [← List.cons_append]
      exact matchG2Start_junk hz hp
    rw [List.cons_append, matchG1Go_cons, hm]
    dsimp only
    by_cases hc : c = '\n'
    · rw [if_pos hc]
    · rw [if_neg hc]
      exact matchG1Go_junk (c :: acc) (fun hm => hz (List.mem_cons_of_mem _ hm)) hp

theorem matchG1_junk {z p : List Char} (hzne : z ≠ []) (hz : '(' ∉ z)
    (hp : nextNonWs p ≠ some '(') : matchG1 (z ++ '\n' :: p) = none := by
  match z, hzne with
  | c :: z', _ =>
    rw [List.cons_append, matchG1_cons]
    by_cases hc : c = '\n'
    · rw [if_pos hc]
    · rw [if_neg hc]
      exact matchG1Go_junk [c] (fun hm => hz (List.mem_cons_of_mem _ hm)) hp

/-! ## Scanning across banner junk onto a listing line -/

theorem renderTail_nil : renderTail [] = [] := rfl

theorem renderTail_cons (l : Line) (ls : List Line) :
    renderTail (l :: ls) = '\n' :: (renderLine l ++ renderTail ls) := rfl

theorem listingRecords_nil : listingRecords [] = [] := rfl

theorem listingRecords_banner (b : List Char) (rest : List Line) :
    listingRecords (.banner b :: rest) = listingRecords rest := rfl

theorem listingRecords_listing (w1 serial w2 g2 w3 g3 : List Char) (rest : List Line) :
    listingRecords (.listing w1 serial w2 g2 w3 g3 :: rest) =
      (serial, g2, g3) :: listingRecords rest := rfl

theorem listing_nextNonWs {w1 serial : List Char} (X : List Char)
    (hw1 : ∀ c ∈ w1, isSpace c = true) (hser : serial ≠ [])
    (hsws : ∀ c ∈ serial, isSpace c = false) (hsp : ∀ c ∈ serial, c ≠ '(') :
    nextNonWs (w1 ++ (serial ++ X)) ≠ some '(' := by
  rw [nextNonWs_ws_append _ hw1]
  match serial, hser with
  | c :: t, _ =>
    rw [List.cons_append, nextNonWs_not_space _ (hsws c (by simp))]
    intro hc
    injection hc with hc
    exact hsp c (by simp) hc

theorem afterWsGo_junk : ∀ (y w1 serial w2 g2 w3 g3 T : List Char),
    '(' ∉ y → ListingOk w1 serial w2 g2 w3 g3 →
    afterWsGo (y ++ '\n' :: (w1 ++ (serial ++ (w2 ++ '(' ::
        (g2 ++ ')' :: (w3 ++ '(' :: (g3 ++ ')' :: T))))))) =
      if y.all isSpace then some ((serial, g2, g3), T) else none
  | [], w1, serial, w2, g2, w3, g3, T, _, hk => by
    rw [List.nil_append, afterWsGo_cons, if_pos isSpace_newline,
      afterWsGo_append w1 hk.w1ws hk.serne hk.serws hk.w2ne hk.w2ws
        hk.g2ne hk.g2c hk.w3ne hk.w3ws hk.g3ne hk.g3c]
    simp
  | c :: y', w1, serial, w2, g2, w3, g3, T, hy, hk => by
    have hy' : '(' ∉ y' := fun hm => hy (List.mem_cons_of_mem _ hm)
    have hnn : nextNonWs (w1 ++ (serial ++ (w2 ++ '(' ::
        (g2 ++ ')' :: (w3 ++ '(' :: (g3 ++ ')' :: T)))))) ≠ some '(' :=
      listing_nextNonWs _ hk.w1ws hk.serne hk.serws hk.serpar
    have hmg : matchG1 (c :: (y' ++ '\n' :: (w1 ++ (serial ++ (w2 ++ '(' ::
        (g2 ++ ')' :: (w3 ++ '(' :: (g3 ++ ')' :: T)))))))) = none := by
      rw [← List.cons_append]
      exact matchG1_junk (by simp) hy hnn
    rw [List.cons_append, afterWsGo_cons]
    by_cases hc : isSpace c = true
    · rw [if_pos hc]
      by_cases hall : y'.all isSpace = true
      · have hIH := afterWsGo_junk y' w1 serial w2 g2 w3 g3 T hy' hk
        rw [if_pos hall] at hIH
        rw [hIH]
        dsimp only
        simp [List.all_cons, hc, hall]
      · have hIH := afterWsGo_junk y' w1 serial w2 g2 w3 g3 T hy' hk
        rw [if_neg hall] at hIH
        rw [hIH]
        dsimp only
        rw [hmg]
        simp [List.all_cons, hall]
    · rw [if_neg hc, hmg]
      simp [List.all_cons, hc]

theorem findAll_listing_after_junk : ∀ (y w1 serial w2 g2 w3 g3 T : List Char),
    '(' ∉ y → ListingOk w1 serial w2 g2 w3 g3 →
    findAll (y ++ '\n' :: (w1 ++ (serial ++ (w2 ++ '(' ::
        (g2 ++ ')' :: (w3 ++ '(' :: (g3 ++ ')' :: T))))))) =
      (serial, g2, g3) :: findAll T
  | [], w1, serial, w2, g2, w3, g3, T, _, hk => by
    have ht : tryAt ('\n' :: (w1 ++ (serial ++ (w2 ++ '(' ::
        (g2 ++ ')' :: (w3 ++ '(' :: (g3 ++ ')' :: T))))))) =
        some ((serial, g2, g3), T) := by
      rw [tryAt_cons, if_pos isSpace_newline]
      exact afterWsGo_append w1 hk.w1ws hk.serne hk.serws hk.w2ne hk.w2ws
        hk.g2ne hk.g2c hk.w3ne hk.w3ws hk.g3ne hk.g3c
    rw [List.nil_append, findAll_cons, ht]
  | c :: y', w1, serial, w2, g2, w3, g3, T, hy, hk => by
    have hy' : '(' ∉ y' := fun hm => hy (List.mem_cons_of_mem _ hm)
    rw [List.cons_append, findAll_cons]
    by_cases hc : isSpace c = true
    · have hgo := afterWsGo_junk y' w1 serial w2 g2 w3 g3 T hy' hk
      by_cases hall : y'.all isSpace = true
      · rw [if_pos hall] at hgo
        have ht : tryAt (c :: (y' ++ '\n' :: (w1 ++ (serial ++ (w2 ++ '(' ::
            (g2 ++ ')' :: (w3 ++ '(' :: (g3 ++ ')' :: T)))))))) =
            some ((serial, g2, g3), T) := by
          rw [tryAt_cons, if_pos hc]
          exact hgo
        rw [ht]
      · rw [if_neg hall] at hgo
        have ht : tryAt (c :: (y' ++ '\n' :: (w1 ++ (serial ++ (w2 ++ '(' ::
            (g2 ++ ')' :: (w3 ++ '(' :: (g3 ++ ')' :: T)))))))) = none := by
          rw [tryAt_cons, if_pos hc]
          exact hgo
        rw [ht]
        dsimp only
        exact findAll_listing_after_junk y' w1 serial w2 g2 w3 g3 T hy' hk
    · have ht : tryAt (c :: (y' ++ '\n' :: (w1 ++ (serial ++ (w2 ++ '(' ::
          (g2 ++ ')' :: (w3 ++ '(' :: (g3 ++ ')' :: T)))))))) = none := by
        rw [tryAt_cons, if_neg hc]
      rw [ht]
      dsimp only
      exact findAll_listing_after_junk y' w1 serial w2 g2 w3 g3 T hy' hk

theorem findAll_listing_head {w1 serial w2 g2 w3 g3 T : List Char}
    (hk : ListingOk w1 serial w2 g2 w3 g3) :
    findAll (w1 ++ (serial ++ (w2 ++ '(' ::
        (g2 ++ ')' :: (w3 ++ '(' :: (g3 ++ ')' :: T)))))) =
      (serial, g2, g3) :: findAll T := by
  match w1, hk.w1ne with
  | c :: u, _ =>
    have ht : tryAt (c :: (u ++ (serial ++ (w2 ++ '(' ::
        (g2 ++ ')' :: (w3 ++ '(' :: (g3 ++ ')' :: T))))))) =
        some ((serial, g2, g3), T) := by
      rw [tryAt_cons, if_pos (hk.w1ws c (by simp))]
      exact afterWsGo_append u (fun x hx => hk.w1ws x (by simp [hx]))
        hk.serne hk.serws hk.w2ne hk.w2ws hk.g2ne hk.g2c hk.w3ne hk.w3ws
        hk.g3ne hk.g3c
    rw [List.cons_append, findAll_cons, ht]

/-! ## From `wfLine`/`wfLines` to the propositional conditions -/

theorem wfLines_cons {l : Line} {ls : List Line} (h : wfLines (l :: ls) = true) :
    wfLine l = true ∧ wfLines ls = true := by
  rw [wfLines, List.all_cons, Bool.and_eq_true] at h
  exact ⟨h.1, h.2⟩

theorem wfLine_banner {b : List Char} (h : wfLine (.banner b) = true) :
    '(' ∉ b := by
  rw [wfLine, List.all_eq_true] at h
  intro hm
  have := h '(' hm
  simp at this

theorem wfLine_listing {w1 serial w2 g2 w3 g3 : List Char}
    (h : wfLine (.listing w1 serial w2 g2 w3 g3) = true) :
    ListingOk w1 serial w2 g2 w3 g3 := by
  rw [wfLine] at h
  simp only [Bool.and_eq_true, Bool.not_eq_true', List.isEmpty_eq_false,
    List.all_eq_true, decide_eq_true_eq] at h
  obtain ⟨⟨⟨⟨⟨⟨h1ne, h1⟩, hsne, hs⟩, h2ne, h2⟩, hg2ne, hg2⟩, h3ne, h3⟩,
    hg3ne, hg3⟩ := h
  exact {
    w1ne := h1ne
    w1ws := fun c hc => ((h1 c hc).1 : _)
    serne := hsne
    serws := fun c hc => by
      have := (hs c hc).1
      simpa using this
    serpar := fun c hc => (hs c hc).2
    w2ne := h2ne
    w2ws := fun c hc => (h2 c hc).1
    g2ne := hg2ne
    g2c := fun c hc => hg2 c hc
    w3ne := h3ne
    w3ws := fun c hc => (h3 c hc).1
    g3ne := hg3ne
    g3c := fun c hc => hg3 c hc }

/-! ## The parser on a whole well-formed text -/

theorem findAll_renderTail : ∀ (ls : List Line), wfLines ls = true →
    ∀ (y : List Char), '(' ∉ y → findAll (y ++ renderTail ls) = listingRecords ls
  | [], _, y, hy => by
    rw [renderTail_nil, List.append_nil, listingRecords_nil]
    exact findAll_no_paren hy
  | .banner b :: rest, h, y, hy => by
    obtain ⟨hl, hrest⟩ := wfLines_cons h
    have hb : '(' ∉ b := wfLine_banner hl
    have hyb : '(' ∉ y ++ '\n' :: b := by
      intro hm
      rcases List.mem_append.1 hm with hm | hm
      · exact hy hm
      · rcases List.mem_cons.1 hm with hm | hm
        · exact absurd hm (by decide)
        · exact hb hm
    rw [renderTail_cons, listingRecords_banner,
      show y ++ '\n' :: (renderLine (.banner b) ++ renderTail rest) =
        (y ++ '\n' :: b) ++ renderTail rest from by
          simp [renderLine, List.append_assoc]]
    exact findAll_renderTail rest hrest _ hyb
  | .listing w1 serial w2 g2 w3 g3 :: rest, h, y, hy => by
    obtain ⟨hl, hrest⟩ := wfLines_cons h
    have hk := wfLine_listing hl
    rw [renderTail_cons, listingRecords_listing,
      show y ++ '\n' :: (renderLine (.listing w1 serial w2 g2 w3 g3) ++
          renderTail rest) =
        y ++ '\n' :: (w1 ++ (serial ++ (w2 ++ '(' :: (g2 ++ ')' ::
          (w3 ++ '(' :: (g3 ++ ')' :: renderTail rest)))))) from by
          simp [renderLine, List.append_assoc]]
    rw [findAll_listing_after_junk y w1 serial w2 g2 w3 g3 (renderTail rest) hy hk]
    have htail := findAll_renderTail rest hrest [] (by simp)
    rw [List.nil_append] at htail
    rw [htail]

/-- The parser on a rendered well-formed text: exactly the records of
its listing lines, in line order, fields verbatim. -/
theorem findAll_renderText (ls : List Line) (h : wfLines ls = true) :
    findAll (renderText ls) = listingRecords ls := by
  match ls with
  | [] => rfl
  | .banner b :: rest =>
    obtain ⟨hl, hrest⟩ := wfLines_cons h
    rw [show renderText (.banner b :: rest) = b ++ renderTail rest from rfl,
      listingRecords_banner]
    exact findAll_renderTail rest hrest b (wfLine_banner hl)
  | .listing w1 serial w2 g2 w3 g3 :: rest =>
    obtain ⟨hl, hrest⟩ := wfLines_cons h
    have hk := wfLine_listing hl
    rw [show renderText (.listing w1 serial w2 g2 w3 g3 :: rest) =
        w1 ++ (serial ++ (w2 ++ '(' :: (g2 ++ ')' ::
          (w3 ++ '(' :: (g3 ++ ')' :: renderTail rest))))) from by
          simp [renderText, renderLine, renderTail, List.append_assoc],
      listingRecords_listing, findAll_listing_head hk]
    have htail := findAll_renderTail rest hrest [] (by simp)
    rw [List.nil_append] at htail
    rw [htail]

/-! ## C1: parsing well-formed listing lines between banner lines -/

/-- Counterexample to claim C1 as stated: the banner line `"a (b) (c)"`
matches nowhere on its own — the parser returns no record for it — yet
when it stands between two well-formed listing lines the newline that
precedes it supplies the `\s+` the pattern needs, and the parser
returns three records instead of two. -/
theorem parse_banner_counterexample :
    findAll "a (b) (c)".toList = [] ∧
    findAll "\t1.a\t(x)\t(y)".toList = [("1.a".toList, "x".toList, "y".toList)] ∧
    findAll "\t2.b\t(u)\t(v)".toList = [("2.b".toList, "u".toList, "v".toList)] ∧
    findAll "\t1.a\t(x)\t(y)\na (b) (c)\n\t2.b\t(u)\t(v)".toList =
      [("1.a".toList, "x".toList, "y".toList),
       ("a".toList, "b".toList, "c".toList),
       ("2.b".toList, "u".toList, "v".toList)] ∧
    findAll "\t1.a\t(x)\t(y)\na (b) (c)\n\t2.b\t(u)\t(v)".toList ≠
      [("1.a".toList, "x".toList, "y".toList),
       ("2.b".toList, "u".toList, "v".toList)] := by
  refine ⟨by decide, by decide, by decide, by decide, by decide⟩

/-- Claim C1 (amended): for any text composed of well-formed listing
lines — nonempty leading whitespace, a serial token free of whitespace
and of `(`, and two parenthesized groups whose nonempty contents
contain no `)` and no newline, each group preceded by nonempty
whitespace — separated by arbitrary banner lines containing no `(`,
the parser returns exactly the records of the listing lines, in the
original line order, with the three fields extracted verbatim. -/
theorem parse_wellformed_text (ls : List Line) (h : wfLines ls = true) :
    findAll (renderText ls) = listingRecords ls :=
  findAll_renderText ls h

/-- Witness for `parse_wellformed_text` on a concrete four-line text. -/
theorem parse_wellformed_text_witness :
    wfLines exampleLines = true ∧
    findAll (renderText exampleLines) =
      [("12345.foo".toList, "Detached".toList, "Multi, 80x24".toList),
       ("678.bar".toList, "Attached".toList, "1 Socket".toList)] :=
  ⟨by decide, (parse_wellformed_text exampleLines (by decide)).trans (by decide)⟩

/-! ## C3: inputs with no matching material -/

/-- Counterexample to claim C3 as stated: in the text `"x\n(a)\n(b) (c)"`
no single line matches the expected record shape — the parser returns
the empty sequence on every one of its lines — yet on the whole text a
match assembles across the line boundaries (the newlines serve as the
whitespace the pattern needs), so the parser returns one record, not
an empty sequence. -/
theorem parse_nonmatching_lines_counterexample :
    findAll "x".toList = [] ∧
    findAll "(a)".toList = [] ∧
    findAll "(b) (c)".toList = [] ∧
    findAll "x\n(a)\n(b) (c)".toList =
      [("(a)".toList, "b".toList, "c".toList)] := by
  refine ⟨by decide, by decide, by decide, by decide⟩

/-- Claim C3 (amended): the parser is a total function — it never
raises — and for any input text containing no `(` character at all
(which covers the empty string and every error-banner-only output) it
returns the empty sequence. -/
theorem parse_total_tolerance (s : List Char) (h : '(' ∉ s) : findAll s = [] :=
  findAll_no_paren h

/-- Witness for `parse_total_tolerance` on a concrete banner-only
input. -/
theorem parse_total_tolerance_witness :
    '(' ∉ "No Sockets found in /run/screen/S-user.\n".toList ∧
    findAll "No Sockets found in /run/screen/S-user.\n".toList = [] :=
  ⟨by decide, parse_total_tolerance _ (by decide)⟩

/-! ## C9: uniqueness of serials in a parse result -/

/-- Counterexample to claim C9 as stated: nothing in the parser
deduplicates serials — a listing text that repeats a line yields two
records with the same serial. -/
theorem parse_duplicate_serials_counterexample :
    findAll "\t1.a\t(x)\t(y)\n\t1.a\t(x)\t(y)".toList =
      [("1.a".toList, "x".toList, "y".toList),
       ("1.a".toList, "x".toList, "y".toList)] ∧
    ¬ ((findAll "\t1.a\t(x)\t(y)\n\t1.a\t(x)\t(y)".toList).map fun r => r.1).Nodup := by
  refine ⟨by decide, by decide⟩

/-- Claim C9 (amended): serial uniqueness is an assumption about the
external tool's listing, not something the parser enforces: for a
well-formed listing text whose listing lines carry pairwise-distinct
serials, the serial fields of the parse result are pairwise distinct. -/
theorem parse_serials_nodup (ls : List Line) (h : wfLines ls = true)
    (hnd : ((listingRecords ls).map fun r => r.1).Nodup) :
    ((findAll (renderText ls)).map fun r => r.1).Nodup := by
  rw [findAll_renderText ls h]
  exact hnd

/-- Witness for `parse_serials_nodup` on the concrete four-line text. -/
theorem parse_serials_nodup_witness :
    wfLines exampleLines = true ∧
    ((listingRecords exampleLines).map fun r => r.1).Nodup ∧
    ((findAll (renderText exampleLines)).map fun r => r.1).Nodup :=
  ⟨by decide, by decide, parse_serials_nodup exampleLines (by decide) (by decide)⟩

/-! ## C10: every capture group is nonempty -/

theorem matchG3Go_ne : ∀ {s : List Char} {acc g r},
    matchG3Go acc s = some (g, r) → acc ≠ [] → g ≠ []
  | [], _, _, _, h, _ => by rw [matchG3Go_nil] at h; exact Option.noConfusion h
  | c :: rest, acc, g, r, h, hacc => by
    rw [matchG3Go_cons] at h
    split at h
    · simp only [Option.some.injEq, Prod.mk.injEq] at h
      obtain ⟨rfl, -⟩ := h
      simp [hacc]
    · split at h
      · exact Option.noConfusion h
      · exact matchG3Go_ne h (by simp)

theorem matchG3_ne {s : List Char} {g r}
    (h : matchG3 s = some (g, r)) : g ≠ [] := by
  match s with
  | [] => rw [matchG3_nil] at h; exact Option.noConfusion h
  | c :: rest =>
    rw [matchG3_cons] at h
    split at h
    · exact Option.noConfusion h
    · exact matchG3Go_ne h (by simp)

theorem matchG3After_ne {s : List Char} {g r}
    (h : matchG3After s = some (g, r)) : g ≠ [] := by
  rw [matchG3After_def] at h
  match hw : wsThenParen s with
  | none => rw [hw] at h; exact Option.noConfusion h
  | some r1 =>
    rw [hw] at h
    exact matchG3_ne (show matchG3 r1 = some (g, r) from h)

theorem matchG2Go_ne : ∀ {s : List Char} {acc g2 g3 r},
    matchG2Go acc s = some (g2, g3, r) → acc ≠ [] → g2 ≠ [] ∧ g3 ≠ []
  | [], _, _, _, _, h, _ => by rw [matchG2Go_nil] at h; exact Option.noConfusion h
  | c :: rest, acc, g2, g3, r, h, hacc => by
    rw [matchG2Go_cons] at h
    split at h
    · split at h
      · rename_i heq
        simp only [Option.some.injEq, Prod.mk.injEq] at h
        obtain ⟨rfl, rfl, -⟩ := h
        exact ⟨by simp [hacc], matchG3After_ne heq⟩
      · exact matchG2Go_ne h (by simp)
    · split at h
      · exact Option.noConfusion h
      · exact matchG2Go_ne h (by simp)

theorem matchG2_ne {s : List Char} {g2 g3 r}
    (h : matchG2 s = some (g2, g3, r)) : g2 ≠ [] ∧ g3 ≠ [] := by
  match s with
  | [] => rw [matchG2_nil] at h; exact Option.noConfusion h
  | c :: rest =>
    rw [matchG2_cons] at h
    split at h
    · exact Option.noConfusion h
    · exact matchG2Go_ne h (by simp)

theorem matchG2Start_ne {s : List Char} {g2 g3 r}
    (h : matchG2Start s = some (g2, g3, r)) : g2 ≠ [] ∧ g3 ≠ [] := by
  rw [matchG2Start_def] at h
  match hw : wsThenParen s with
  | none => rw [hw] at h; exact Option.noConfusion h
  | some r1 =>
    rw [hw] at h
    exact matchG2_ne (show matchG2 r1 = some (g2, g3, r) from h)

theorem matchG1Go_ne : ∀ {s : List Char} {acc pr r},
    matchG1Go acc s = some (pr, r) → acc ≠ [] →
    pr.1 ≠ [] ∧ pr.2.1 ≠ [] ∧ pr.2.2 ≠ []
  | [], _, _, _, h, _ => by rw [matchG1Go_nil] at h; exact Option.noConfusion h
  | c :: rest, acc, pr, r, h, hacc => by
    rw [matchG1Go_cons] at h
    split at h
    · rename_i g2 g3 r1 heq
      simp only [Option.some.injEq, Prod.mk.injEq] at h
      obtain ⟨rfl, -⟩ := h
      exact ⟨by simp [hacc], (matchG2Start_ne heq).1, (matchG2Start_ne heq).2⟩
    · split at h
      · exact Option.noConfusion h
      · exact matchG1Go_ne h (by simp)

theorem matchG1_ne {s : List Char} {pr r}
    (h : matchG1 s = some (pr, r)) :
    pr.1 ≠ [] ∧ pr.2.1 ≠ [] ∧ pr.2.2 ≠ [] := by
  match s with
  | [] => rw [matchG1_nil] at h; exact Option.noConfusion h
  | c :: rest =>
    rw [matchG1_cons] at h
    split at h
    · exact Option.noConfusion h
    · exact matchG1Go_ne h (by simp)

theorem afterWsGo_ne : ∀ {s : List Char} {pr r},
    afterWsGo s = some (pr, r) → pr.1 ≠ [] ∧ pr.2.1 ≠ [] ∧ pr.2.2 ≠ []
  | [], _, _, h => by rw [afterWsGo_nil] at h; exact Option.noConfusion h
  | c :: rest, pr, r, h => by
    rw [afterWsGo_cons] at h
    split at h
    · split at h
      · rename_i x heq
        simp only [Option.some.injEq] at h
        subst h
        exact afterWsGo_ne heq
      · exact matchG1_ne h
    · exact matchG1_ne h

theorem tryAt_ne {s : List Char} {pr r}
    (h : tryAt s = some (pr, r)) : pr.1 ≠ [] ∧ pr.2.1 ≠ [] ∧ pr.2.2 ≠ [] := by
  match s with
  | [] => rw [tryAt_nil] at h; exact Option.noConfusion h
  | c :: rest =>
    rw [tryAt_cons] at h
    split at h
    · exact afterWsGo_ne h
    · exact Option.noConfusion h

theorem findAll_mem_fields_ne : ∀ (n : Nat) (s : List Char), s.length ≤ n →
    ∀ r ∈ findAll s, r.1 ≠ [] ∧ r.2.1 ≠ [] ∧ r.2.2 ≠ []
  | _, [], _, r, hr => by rw [findAll_nil] at hr; exact absurd hr (List.not_mem_nil r)
  | 0, c :: rest, h, _, _ => by simp at h
  | n + 1, c :: rest, h, r, hr => by
    rw [findAll_cons] at hr
    match htry : tryAt (c :: rest) with
    | some (pr, q) =>
      rw [htry] at hr
      dsimp only at hr
      rcases List.mem_cons.1 hr with hr | hr
      · subst hr
        exact tryAt_ne htry
      · have hq := tryAt_length htry
        simp only [List.length_cons] at hq h
        exact findAll_mem_fields_ne n q
          (Nat.le_of_lt_succ (Nat.lt_of_lt_of_le hq h)) r hr
    | none =>
      rw [htry] at hr
      dsimp only at hr
      exact findAll_mem_fields_ne n rest
        (by simpa using Nat.le_of_succ_le_succ h) r hr

/-- Claim C10: every record the parser returns has all three fields
nonempty — each capture group of the pattern requires at least one
character. -/
theorem parse_fields_nonempty (s : List Char) (r : ScreenRec)
    (h : r ∈ findAll s) : r.1 ≠ [] ∧ r.2.1 ≠ [] ∧ r.2.2 ≠ [] :=
  findAll_mem_fields_ne s.length s (Nat.le_refl _) r h

/-- Witness for `parse_fields_nonempty` on the round-trip example
line. -/
theorem parse_fields_nonempty_witness :
    ("12345.foo".toList, "Detached".toList, "Multi, 80x24".toList) ∈
      findAll "\t12345.foo\t(Detached)\t(Multi, 80x24)".toList ∧
    ("12345.foo".toList ≠ [] ∧ "Detached".toList ≠ [] ∧
      "Multi, 80x24".toList ≠ []) :=
  ⟨by decide,
   parse_fields_nonempty "\t12345.foo\t(Detached)\t(Multi, 80x24)".toList
     ("12345.foo".toList, "Detached".toList, "Multi, 80x24".toList) (by decide)⟩
